import Mathlib

/-!
Shallow embedding of the Moorent Pm onboarding questionnaire's form-state
subsystem, translated from the repository's JavaScript sources:

* `navigation.js` — the `FormNav` navigation module and the `FormState`
  centralized state module (default state, `loadState`, `saveState`,
  `getState`, `get/setCurrentStep`, `get/setStepData`, `setFieldValue`,
  `clearState`, `navigateForward`);
* the `StepPrivacy` module — `checkDuplicatePrevention`, `flattenFormData`,
  `handleSubmit` guards;
* the `FormSubmission` module — `submitWithRetry`;
* the application bootstrap (`DOMContentLoaded` handler) — restored-step
  range check.

JavaScript values are modelled by the inductive `JVal`; machine floats are
modelled as exact rationals plus an explicit NaN constructor (the verified
code paths only compare and add numbers, they never round).  DOM reads and
writes are outside the state model; `localStorage` is modelled by an
explicit environment record.
-/

/-- A JavaScript runtime value, as far as the verified code paths need:
primitives, NaN, finite numbers (exact rationals), strings, arrays and
plain objects (field lists in insertion order, keys unique). -/
inductive JVal where
  | null
  | undef
  | bool (b : Bool)
  | nan
  | num (q : ℚ)
  | str (s : String)
  | arr (elems : List JVal)
  | obj (fields : List (String × JVal))

namespace JVal

/-- JS truthiness: `false`, `0`, `NaN`, `""`, `null`, `undefined` are falsy,
everything else (including every object and array) is truthy. -/
def truthy : JVal → Bool
  | .null => false
  | .undef => false
  | .bool b => b
  | .nan => false
  | .num q => q != 0
  | .str s => s != ""
  | .arr _ => true
  | .obj _ => true

/-- `typeof v === 'object'` — true for `null`, arrays and plain objects. -/
def typeofObject : JVal → Bool
  | .null => true
  | .arr _ => true
  | .obj _ => true
  | _ => false

/-- `typeof v === 'number'` — true for finite numbers and NaN. -/
def isNumber : JVal → Bool
  | .num _ => true
  | .nan => true
  | _ => false

/-- JS ToNumber coercion, producing `num` or `nan`.  Numeric-string parsing
and object-to-primitive coercion are not modelled (they coerce to NaN
here); no theorem in this file exercises those cases — every comparison
and addition below is performed on operands that are already numbers or
strings. -/
def toNum : JVal → JVal
  | .null => .num 0
  | .undef => .nan
  | .bool b => .num (if b then 1 else 0)
  | .nan => .nan
  | .num q => .num q
  | .str _ => .nan
  | .arr _ => .nan
  | .obj _ => .nan

/-- JS `<` on coerced numeric operands; any NaN operand compares false. -/
def jsLt (a b : JVal) : Bool :=
  match toNum a, toNum b with
  | .num x, .num y => x < y
  | _, _ => false

/-- JS `>` on coerced numeric operands; any NaN operand compares false. -/
def jsGt (a b : JVal) : Bool :=
  match toNum a, toNum b with
  | .num x, .num y => x > y
  | _, _ => false

/-- JS `>=` on coerced numeric operands; any NaN operand compares false. -/
def jsGe (a b : JVal) : Bool :=
  match toNum a, toNum b with
  | .num x, .num y => x ≥ y
  | _, _ => false

/-- JS ToString for the value shapes the verified paths concatenate.
Number formatting is exact for integers; the decimal rendering of
non-integer doubles is not modelled (no theorem exercises it). -/
def jsToString : JVal → String
  | .null => "null"
  | .undef => "undefined"
  | .bool b => if b then "true" else "false"
  | .nan => "NaN"
  | .num q => if q.den = 1 then toString q.num else "?"
  | .str s => s
  | .arr _ => "?"
  | .obj _ => "[object Object]"

/-- JS `+`: string concatenation when either operand is a string, numeric
addition otherwise (object-to-primitive coercion not modelled, unused). -/
def jsAdd (a b : JVal) : JVal :=
  match a, b with
  | .str s, _ => .str (s ++ jsToString b)
  | _, .str s => .str (jsToString a ++ s)
  | _, _ =>
    match toNum a, toNum b with
    | .num x, .num y => .num (x + y)
    | _, _ => .nan

/-- Property read `o[k]` on a plain object: the stored value, or
`undefined` when the key is absent or the receiver is not a plain object
(string/array index reads are not modelled, unused). -/
def get (o : JVal) (k : String) : JVal :=
  match o with
  | .obj fs => (fs.lookup k).getD .undef
  | _ => .undef

end JVal

/-- Property write on an object's field list: replaces the value of an
existing key in place (JS objects keep insertion order) or appends a new
key at the end. -/
def setF : List (String × JVal) → String → JVal → List (String × JVal)
  | [], k, v => [(k, v)]
  | (k', v') :: rest, k, v =>
    if k' = k then (k, v) :: rest else (k', v') :: setF rest k v

mutual

/-- `JSON.parse(JSON.stringify(v))` as a pure tree transformation: NaN
serializes to `null`, `undefined` array elements to `null`, and
`undefined`-valued object fields are dropped. -/
def serializeVal : JVal → JVal
  | .null => .null
  | .undef => .null
  | .bool b => .bool b
  | .nan => .null
  | .num q => .num q
  | .str s => .str s
  | .arr es => .arr (serializeList es)
  | .obj fs => .obj (serializeObj fs)

/-- Serialize the elements of an array. -/
def serializeList : List JVal → List JVal
  | [] => []
  | v :: rest => serializeVal v :: serializeList rest

/-- Serialize an object's fields, dropping `undefined`-valued ones. -/
def serializeObj : List (String × JVal) → List (String × JVal)
  | [] => []
  | (k, v) :: rest =>
    match v with
    | .undef => serializeObj rest
    | v => (k, serializeVal v) :: serializeObj rest

end

/-! ## FormState (navigation.js, second module)

The in-memory singleton `state` has the four fields of `defaultState`.
A record restored by `loadState` may carry extra fields; those are not
observable through any of the public operations modelled here and are
not modelled. -/

/-- The in-memory `state` object of the FormState module. -/
structure FormStateRec where
  currentStep : JVal
  formData : JVal
  totalSteps : JVal
  lastUpdated : JVal

/-- `defaultState` from navigation.js: step 0, seven empty step maps,
`totalSteps: 7`, `lastUpdated: null`. -/
def defaultState : FormStateRec :=
  { currentStep := .num 0
  , formData := .obj
      [ ("step0", .obj []), ("step1", .obj []), ("step2", .obj [])
      , ("step3", .obj []), ("step4", .obj []), ("step5", .obj [])
      , ("step6", .obj []) ]
  , totalSteps := .num 7
  , lastUpdated := .null }

/-- What is durably stored under the `moorent-onboarding-state` key: either
a string that fails `JSON.parse`, or one that parses to a value (strings
are identified with their parse result). -/
inductive Stored where
  | rawInvalid (s : String)
  | json (v : JVal)

/-- The storage environment: the `localStorageAvailable` flag, the stored
record, whether `setItem` throws for this session and whether that error
is quota-exceeded, and the current clock reading as an ISO string.
`removeItem` is modelled as always succeeding (it does not throw in
practice; the code swallows its errors anyway). -/
structure Env where
  available : Bool
  store : Option Stored
  writeFails : Bool
  quotaErr : Bool
  now : String

/-- The four own fields of the in-memory state, in declaration order, as
serialized by `saveState`. -/
def stateFields (st : FormStateRec) : List (String × JVal) :=
  [ ("currentStep", st.currentStep), ("formData", st.formData)
  , ("totalSteps", st.totalSteps), ("lastUpdated", st.lastUpdated) ]

/-- `JSON.stringify(state)`, kept at the parsed-value level. -/
def serializeState (st : FormStateRec) : JVal :=
  serializeVal (.obj (stateFields st))

/-- `saveState()`: stamps `lastUpdated`, then stores the serialized state;
returns false when the medium is unavailable or the write throws, and on
quota exhaustion flips the availability flag for the session. -/
def saveState (st : FormStateRec) (e : Env) : FormStateRec × Env × Bool :=
  let st' := { st with lastUpdated := .str e.now }
  if !e.available then (st', e, false)
  else if e.writeFails then
    if e.quotaErr then (st', { e with available := false }, false)
    else (st', e, false)
  else (st', { e with store := some (.json (serializeState st')) }, true)

/-- The structural corruption check of `loadState`:
`!parsed || typeof parsed !== 'object' || !parsed.formData`. -/
def corruptRecord (v : JVal) : Bool :=
  !v.truthy || !v.typeofObject || !(v.get "formData").truthy

/-- Installing a parsed record as the in-memory state (`state = parsed`):
the four observable fields are read off the record, missing ones read as
`undefined`. -/
def recordToState (v : JVal) : FormStateRec :=
  { currentStep := v.get "currentStep"
  , formData := v.get "formData"
  , totalSteps := v.get "totalSteps"
  , lastUpdated := v.get "lastUpdated" }

/-- `loadState()`: returns false (leaving state untouched) when storage is
unavailable, no record exists, or the record is corrupt — a corrupt record
(unparsable, non-object, or without a truthy `formData`) is removed.
A structurally valid record replaces the in-memory state wholesale. -/
def loadState (st : FormStateRec) (e : Env) : FormStateRec × Env × Bool :=
  if !e.available then (st, e, false)
  else
    match e.store with
    | none => (st, e, false)
    | some (.rawInvalid _) => (st, { e with store := none }, false)
    | some (.json v) =>
      if corruptRecord v then (st, { e with store := none }, false)
      else (recordToState v, e, true)

/-- `getCurrentStep()`. -/
def getCurrentStep (st : FormStateRec) : JVal :=
  st.currentStep

/-- `setCurrentStep(step)`: rejects non-numbers and numbers for which
`step < 0` or `step >= state.totalSteps` evaluates true (NaN fails both
comparisons and is accepted); on acceptance stores the value and
persists. -/
def setCurrentStep (st : FormStateRec) (e : Env) (step : JVal) : FormStateRec × Env :=
  if !step.isNumber || JVal.jsLt step (.num 0) || JVal.jsGe step st.totalSteps then
    (st, e)
  else
    let r := saveState { st with currentStep := step } e
    (r.1, r.2.1)

/-- The step key `'step' + stepIndex`; step indices are modelled as
integers (every call site passes an integer). -/
def stepKey (i : ℤ) : String :=
  "step" ++ toString i

/-- `getStepData(stepIndex)`: `{}` when the step entry is falsy/absent,
otherwise a JSON round-trip copy of it (in this pure model, the
serialized tree; aliasing is treated in the heap model below). -/
def getStepData (st : FormStateRec) (i : ℤ) : JVal :=
  let v := st.formData.get (stepKey i)
  if !v.truthy then .obj [] else serializeVal v

/-- `setFieldValue(stepIndex, fieldName, value)`: creates the step entry
as `{}` when falsy/absent, then upserts the field and persists.  A truthy
non-object step entry or a non-object `formData` would raise a strict-mode
TypeError (a crash); that path is modelled as an identity and is not
reachable from any state the theorems below use. -/
def setFieldValue (st : FormStateRec) (e : Env) (i : ℤ) (name : String) (v : JVal) :
    FormStateRec × Env :=
  let key := stepKey i
  match st.formData with
  | .obj fs =>
    let cur := (fs.lookup key).getD .undef
    let base : JVal := if !cur.truthy then .obj [] else cur
    match base with
    | .obj inner =>
      let r := saveState
        { st with formData := .obj (setF fs key (.obj (setF inner name v))) } e
      (r.1, r.2.1)
    | _ => (st, e)
  | _ => (st, e)

/-- `setStepData(stepIndex, data)`: rejects falsy or non-object `data`
(logs and no-ops); otherwise replaces the step entry with a JSON
round-trip copy of `data` and persists.  A non-object `formData` would be
a strict-mode TypeError, modelled as an identity as above. -/
def setStepData (st : FormStateRec) (e : Env) (i : ℤ) (d : JVal) : FormStateRec × Env :=
  if !d.truthy || !d.typeofObject then (st, e)
  else
    match st.formData with
    | .obj fs =>
      let r := saveState
        { st with formData := .obj (setF fs (stepKey i) (serializeVal d)) } e
      (r.1, r.2.1)
    | _ => (st, e)

/-- `clearState()`: resets the in-memory state to a copy of the default
shape and removes the persisted record when storage is available. -/
def clearState (st : FormStateRec) (e : Env) : FormStateRec × Env :=
  let _ := st
  if !e.available then (defaultState, e)
  else (defaultState, { e with store := none })

/-! ## FormNav (navigation.js, first module) -/

/-- The FormState effect of `showStep(i)`: the DOM work (step visibility,
progress bar, buttons, scrolling) and the read-only review/upload hooks
are outside the state model; the one state write is
`FormState.setCurrentStep(i)`. -/
def showStepState (st : FormStateRec) (e : Env) (i : JVal) : FormStateRec × Env :=
  setCurrentStep st e i

/-- `navigateForward()`: reads `currentStep`; returns when
`currentStep >= 6`; for `0 < currentStep < 6` consults the validation
gate (`FormValidation.showStepErrors`, abstracted as a boolean capability,
`none` when the module is absent) and aborts on failure; otherwise shows
step `currentStep + 1`. -/
def navigateForward (gate : Option (JVal → Bool)) (st : FormStateRec) (e : Env) :
    FormStateRec × Env :=
  let c := getCurrentStep st
  if JVal.jsGe c (.num 6) then (st, e)
  else if JVal.jsGt c (.num 0) && JVal.jsLt c (.num 6) then
    match gate with
    | some g => if g c then showStepState st e (JVal.jsAdd c (.num 1)) else (st, e)
    | none => showStepState st e (JVal.jsAdd c (.num 1))
  else showStepState st e (JVal.jsAdd c (.num 1))

/-- The restored-step range check of the application bootstrap
(`DOMContentLoaded` handler): start from the saved step only when a
session was loaded and `savedStep >= 0 && savedStep < 7`; otherwise start
from step 0. -/
def bootStartStep (loaded : Bool) (savedStep : JVal) : JVal :=
  if loaded && JVal.jsGe savedStep (.num 0) && JVal.jsLt savedStep (.num 7) then savedStep
  else .num 0

/-! ## StepPrivacy (privacy consent and submission orchestration) -/

/-- Strict equality `v === s` against a string literal: true only when `v`
is exactly that string (no coercion). -/
def JVal.strictEqStr (v : JVal) (s : String) : Bool :=
  match v with
  | .str t => t = s
  | _ => false

/-- `checkDuplicatePrevention()`: reads the `moorent-onboarding-submitted`
marker (`marker`, `none` when absent), parses it with `new Date`
(abstracted as the environment capability `dateOf`, returning the epoch
milliseconds or `none` for an Invalid Date, whose NaN fails every
comparison), and reports whether the elapsed time is under 24 hours.  Any
storage read error (`readErr`) is caught and fails open. -/
def checkDuplicatePrevention (readErr : Bool) (marker : Option String)
    (dateOf : String → Option ℚ) (now : ℚ) : Bool :=
  if readErr then false
  else
    match marker with
    | none => false
    | some ts =>
      if ts = "" then false
      else
        match dateOf ts with
        | some t => decide ((now - t) / (1000 * 60 * 60) < 24)
        | none => false

/-- The `switch (fieldName)` of `flattenFormData`: renames the thirteen
recognized field names onto the delivery schema; all other fields are
dropped (the `default` branch writes nothing). -/
def mapField (flat : List (String × JVal)) (fieldName : String) (value : JVal) :
    List (String × JVal) :=
  match fieldName with
  | "nome" => setF flat "nome" value
  | "cognome" => setF flat "cognome" value
  | "data-nascita" => setF flat "dataNascita" value
  | "codice-fiscale" => setF flat "codiceFiscale" value
  | "email" => setF flat "email" value
  | "telefono" => setF flat "telefono" value
  | "tracking-source" => setF flat "comeConosciuto" value
  | "referral-name" => setF flat "chiPresentato" value
  | "altre-spese" => setF flat "note" value
  | "spese-condominio" => setF flat "speseCondominio" value
  | "imu" => setF flat "imu" value
  | "tari" => setF flat "tari" value
  | "utenze" => setF flat "utenzeMedie" value
  | _ => flat

/-- The nested `for-in` loop of `flattenFormData`: every field of every
step entry is fed through the rename switch, in insertion order (later
occurrences of a renamed field overwrite earlier ones).  `for-in` over a
non-object step entry enumerates nothing (string index enumeration is not
modelled; no theorem exercises it). -/
def flattenLoop (fd : List (String × JVal)) : List (String × JVal) :=
  fd.foldl
    (fun flat p =>
      match p.2 with
      | .obj stepFields => stepFields.foldl (fun fl q => mapField fl q.1 q.2) flat
      | _ => flat)
    []

/-- The address assembly of `flattenFormData` for one address: when the
`via` component is truthy, builds
`[via, civico, cap + ' ' + citta, '(' + provincia + ')']`, keeps the parts
that are truthy and not the literal string `'()'`, and joins them with
`', '` (each part converted by ToString); returns `none` (no field
written) when `via` is falsy. -/
def addrValue (stp : JVal) (via civico cap citta prov : String) : Option String :=
  if (stp.get via).truthy then
    let parts : List JVal :=
      [ stp.get via
      , stp.get civico
      , .str ((stp.get cap).jsToString ++ " " ++ (stp.get citta).jsToString)
      , .str ("(" ++ (stp.get prov).jsToString ++ ")") ]
    some (String.intercalate ", "
      ((parts.filter (fun p => p.truthy && !(p.strictEqStr "()"))).map JVal.jsToString))
  else none

/-- `flattenFormData(formData)`: the rename loop, then the two assembled
addresses (reading `formData.step1 || {}` and `formData.step2 || {}`),
then the unconditional `flat.privacyAccettata = true`. -/
def flattenFormData (formData : JVal) : List (String × JVal) :=
  let flat :=
    match formData with
    | .obj fds => flattenLoop fds
    | _ => []
  let step1 := if (formData.get "step1").truthy then formData.get "step1" else .obj []
  let step2 := if (formData.get "step2").truthy then formData.get "step2" else .obj []
  let flat :=
    match addrValue step1 "via-residenza" "civico-residenza" "cap-residenza"
        "citta-residenza" "provincia-residenza" with
    | some s => setF flat "indirizzoPersonale" (.str s)
    | none => flat
  let flat :=
    match addrValue step2 "via-immobile" "civico-immobile" "cap-immobile"
        "citta-immobile" "provincia-immobile" with
    | some s => setF flat "indirizzoImmobile" (.str s)
    | none => flat
  setF flat "privacyAccettata" (.bool true)

/-- The entry guards of `handleSubmit`: the click is ignored when the
idempotency flag `hasSubmitted` is already set, when the consent checkbox
element is missing, or when it is unchecked; only past these guards does
the handler build and deliver the payload. -/
def handleSubmitProceeds (hasSubmitted : Bool) (checkbox : Option Bool) : Bool :=
  if hasSubmitted then false
  else
    match checkbox with
    | none => false
    | some checked => checked

/-! ## FormSubmission (retrying delivery) -/

/-- The localized exhausted-retries message (`ERROR_MESSAGES.retryEsaurito`). -/
def retryEsaurito : String :=
  "Impossibile completare l'invio dopo più tentativi. Verificare la connessione."

/-- One round of `attemptSubmit` inside `submitWithRetry`, starting after
`a` attempts have already been made: increments the attempt counter,
consults the delivery capability (`deliver attempt`, true when the fetch
resolves OK with a non-false `success`), and on failure either waits
`2^(attempt-1) * 1000` ms and retries (when attempts remain) or throws the
exhausted-retries error.  Returns the outcome, the list of induced delays
in milliseconds, and the number of attempts performed. -/
def attemptSubmit (deliver : ℕ → Bool) (maxAttempts a : ℕ) :
    Except String Unit × List ℚ × ℕ :=
  let attempt := a + 1
  if deliver attempt then (.ok (), [], attempt)
  else if _h : attempt < maxAttempts then
    let r := attemptSubmit deliver maxAttempts attempt
    (r.1, ((2 : ℚ) ^ (attempt - 1) * 1000) :: r.2.1, r.2.2)
  else (.error retryEsaurito, [], attempt)
termination_by maxAttempts - a
decreasing_by omega

/-- `submitWithRetry(payload, maxAttempts)`: `maxAttempts || 3` defaults a
falsy (0 / undefined) argument to 3, then runs the sequential attempt
loop. -/
def submitWithRetry (deliver : ℕ → Bool) (maxAttempts : ℕ) :
    Except String Unit × List ℚ × ℕ :=
  attemptSubmit deliver (if maxAttempts = 0 then 3 else maxAttempts) 0

/-! ## Operation sequences over the FormState API (for the key-set invariant) -/

/-- One call to a public FormState operation, with its arguments.  Step
indices are modelled as integers: every call site in the repository passes
an integer (`parseInt` results and literals). -/
inductive FOp where
  | setField (i : ℤ) (name : String) (v : JVal)
  | setStep (i : ℤ) (d : JVal)
  | setCur (v : JVal)
  | load
  | save
  | clear

/-- Run one operation against the in-memory state and the storage
environment (returned booleans are discarded, as callers do). -/
def runOp (se : FormStateRec × Env) : FOp → FormStateRec × Env
  | .setField i name v => setFieldValue se.1 se.2 i name v
  | .setStep i d => setStepData se.1 se.2 i d
  | .setCur v => setCurrentStep se.1 se.2 v
  | .load => ((loadState se.1 se.2).1, (loadState se.1 se.2).2.1)
  | .save => ((saveState se.1 se.2).1, (saveState se.1 se.2).2.1)
  | .clear => clearState se.1 se.2

/-- Run a sequence of operations from left to right. -/
def runOps (se : FormStateRec × Env) (ops : List FOp) : FormStateRec × Env :=
  ops.foldl runOp se

/-- The seven step keys of the default state, in order. -/
def stdStepKeys : List String :=
  ["step0", "step1", "step2", "step3", "step4", "step5", "step6"]

/-- `v` is `undefined`. -/
def JVal.isUndef : JVal → Bool
  | .undef => true
  | _ => false

/-- `ks` contains exactly the elements of `stdStepKeys` (each exactly
once, in any order): the key-set property claimed for `formData`. -/
def permStd (ks : List String) : Bool :=
  stdStepKeys.all ks.contains && ks.all stdStepKeys.contains && decide ks.Nodup

/-- The shape `formData` is claimed to keep: a plain object whose key set
is exactly the seven step keys; additionally none of its values is
`undefined` (true of every state the module itself builds, and needed for
serialization not to drop a step key). -/
def FDokB (v : JVal) : Bool :=
  match v with
  | .obj fs => permStd (fs.map Prod.fst) && fs.all (fun p => !p.2.isUndef)
  | _ => false

/-- The persisted record is harmless for the key-set invariant: absent,
unparsable, rejected by `loadState`'s structure check, or carrying a
`formData` of the invariant shape. -/
def storeOKB : Option Stored → Bool
  | none => true
  | some (.rawInvalid _) => true
  | some (.json v) => corruptRecord v || FDokB (v.get "formData")

/-- The argument restriction of the amended key-set claim: bulk/field
writes only target the seven real steps. -/
def opOKB : FOp → Bool
  | .setField i _ _ => decide (0 ≤ i ∧ i ≤ 6)
  | .setStep i _ => decide (0 ≤ i ∧ i ≤ 6)
  | _ => true

/-! ## Concrete inputs used by counterexamples and witnesses -/

/-- A healthy storage environment: available, empty, writes succeed. -/
def env0 : Env :=
  { available := true, store := none, writeFails := false, quotaErr := false
  , now := "2026-01-01T00:00:00.000Z" }

/-- A `formData` whose step 1 has a street and a city but no postal code:
input of the address-assembly counterexample. -/
def fdC8 : JVal :=
  .obj [("step1", .obj [("via-residenza", .str "Via Roma"), ("citta-residenza", .str "Roma")])]

/-- A structurally valid persisted record whose `currentStep` is 99. -/
def recC10 : JVal :=
  .obj [("formData", .obj [("step0", .obj [])]), ("currentStep", .num 99)]

/-! ## Heap model of defensive copying

`getState` and `getStepData` return `JSON.parse(JSON.stringify(...))` of
internal data.  The pure model above keeps only values; to settle the
snapshot-isolation claim we model the mutable object graph explicitly: a
heap maps addresses to plain objects, values are primitives or
references, mutation is a field store at an address, and the JSON
round-trip is "extract the reachable tree, then allocate it at fresh
addresses".  Arrays are not modelled (the form state holds only
primitives and nested plain objects). -/

/-- A heap value: a JS primitive or a reference to a heap object. -/
inductive HVal where
  | null
  | undef
  | bool (b : Bool)
  | nan
  | num (q : ℚ)
  | str (s : String)
  | ref (a : ℕ)

/-- A heap object: its fields in insertion order. -/
abbrev HObj := List (String × HVal)

/-- A heap: an allocation list from addresses to objects. -/
abbrev Heap := List (ℕ × HObj)

/-- `v` is `undefined` (heap values). -/
def HVal.isUndef : HVal → Bool
  | .undef => true
  | _ => false

/-- Address lookup. -/
def lookupH (h : Heap) (a : ℕ) : Option HObj :=
  h.lookup a

/-- Field update inside one object (replace in place or append). -/
def setFH : HObj → String → HVal → HObj
  | [], f, v => [(f, v)]
  | (g, w) :: rest, f, v =>
    if g = f then (f, v) :: rest else (g, w) :: setFH rest f v

/-- The mutation `o.f = v` where `o` is the object at address `a`:
the single primitive with which JS code can alter a snapshot or the
internal state. -/
def storeField (h : Heap) (a : ℕ) (f : String) (v : HVal) : Heap :=
  h.map (fun p => if p.1 = a then (p.1, setFH p.2 f v) else p)

/-- `JSON.stringify` as tree extraction: follow references up to `fuel`
levels (the heaps considered are acyclic, so extraction is exact once the
fuel exceeds the reachable depth), serialize NaN/undefined to `null`, and
drop `undefined`-valued fields. -/
def extractV : ℕ → Heap → HVal → JVal
  | 0, _, _ => .null
  | _ + 1, _, .null => .null
  | _ + 1, _, .undef => .null
  | _ + 1, _, .bool b => .bool b
  | _ + 1, _, .nan => .null
  | _ + 1, _, .num q => .num q
  | _ + 1, _, .str s => .str s
  | fuel + 1, h, .ref a =>
    match lookupH h a with
    | some ob =>
      .obj ((ob.filter (fun p => !p.2.isUndef)).map (fun p => (p.1, extractV fuel h p.2)))
    | none => .null

mutual

/-- `JSON.parse` as fresh allocation: build the tree at addresses starting
from `n`, returning the root value, the newly allocated fragment and the
next free address. -/
def allocTree : JVal → ℕ → HVal × Heap × ℕ
  | .null, n => (.null, [], n)
  | .undef, n => (.null, [], n)
  | .bool b, n => (.bool b, [], n)
  | .nan, n => (.null, [], n)
  | .num q, n => (.num q, [], n)
  | .str s, n => (.str s, [], n)
  | .arr _, n => (.null, [], n)
  | .obj fs, n =>
    let r := allocFields fs (n + 1)
    (.ref n, (n, r.1) :: r.2.1, r.2.2)

/-- Allocate the values of an object's fields in order. -/
def allocFields : List (String × JVal) → ℕ → HObj × Heap × ℕ
  | [], n => ([], [], n)
  | (k, v) :: rest, n =>
    let r1 := allocTree v n
    let r2 := allocFields rest r1.2.2
    ((k, r1.1) :: r2.1, r1.2.1 ++ r2.2.1, r2.2.2)

end

/-- The heap-level `getState` / `getStepData` body,
`JSON.parse(JSON.stringify(v))`: extract the tree reachable from `v`
(with `fuel` covering its depth) and allocate it afresh from address `n`. -/
def deepCopy (fuel : ℕ) (h : Heap) (v : HVal) (n : ℕ) : HVal × Heap × ℕ :=
  allocTree (extractV fuel h v) n

/-- Every reference occurring in `v` is below `n`. -/
def refsBelowV (n : ℕ) : HVal → Bool
  | .ref a => decide (a < n)
  | _ => true

/-- Every reference of every field of `ob` is below `n`. -/
def refsBelowO (n : ℕ) (ob : HObj) : Bool :=
  ob.all (fun p => refsBelowV n p.2)

/-- Every allocated address of `h` is below `n` and every reference
stored in `h` is below `n`: the well-formedness of the internal heap
before a copy at fresh addresses from `n`. -/
def heapBelow (n : ℕ) (h : Heap) : Bool :=
  h.all (fun p => decide (p.1 < n) && refsBelowO n p.2)

/-- Every reference occurring in `v` is at least `n`. -/
def refsAtLeastV (n : ℕ) : HVal → Bool
  | .ref a => decide (n ≤ a)
  | _ => true

/-- Every reference of every field of `ob` is at least `n`. -/
def refsAtLeastO (n : ℕ) (ob : HObj) : Bool :=
  ob.all (fun p => refsAtLeastV n p.2)

/-- Every allocated address of `h` is at least `n` and every reference
stored in `h` is at least `n`: the shape of a freshly allocated
fragment. -/
def heapAtLeast (n : ℕ) (h : Heap) : Bool :=
  h.all (fun p => decide (n ≤ p.1) && refsAtLeastO n p.2)

mutual

/-- Depth of a pure tree, an upper bound for the fuel its re-extraction
needs. -/
def depthJ : JVal → ℕ
  | .obj fs => depthFields fs + 1
  | .arr es => depthList es + 1
  | _ => 1

/-- Depth bound over an object's field values. -/
def depthFields : List (String × JVal) → ℕ
  | [] => 0
  | (_, v) :: rest => max (depthJ v) (depthFields rest)

/-- Depth bound over array elements. -/
def depthList : List JVal → ℕ
  | [] => 0
  | v :: rest => max (depthJ v) (depthList rest)

end

/-- A concrete internal heap for the snapshot-isolation witness: the state
root at address 0 points to a `formData` object at address 1, which
points to a step object at address 2 holding one field. -/
def heapW : Heap :=
  [ (0, [("currentStep", .num 2), ("formData", .ref 1)])
  , (1, [("step0", .ref 2)])
  , (2, [("nome", .str "Ada")]) ]

/-! ## Lemmas about object field lookup and update -/

theorem lookup_setF_self (fs : List (String × JVal)) (k : String) (v : JVal) :
    (setF fs k v).lookup k = some v := by
  induction fs with
  | nil => simp [setF]
  | cons p rest ih =>
    obtain ⟨g, w⟩ := p
    by_cases h : g = k
    · simp [setF, h]
    · have hkg : (k == g) = false := beq_false_of_ne (Ne.symm h)
      simp [setF, h, ih, List.lookup, hkg]

theorem lookup_setF_ne (fs : List (String × JVal)) (k g : String) (v : JVal)
    (h : g ≠ k) : (setF fs k v).lookup g = fs.lookup g := by
  have hgk : (g == k) = false := beq_false_of_ne h
  induction fs with
  | nil => simp [setF, List.lookup, hgk]
  | cons p rest ih =>
    obtain ⟨q, w⟩ := p
    by_cases hq : q = k
    · subst hq
      simp [setF, List.lookup, hgk, ih]
    · simp [setF, hq, List.lookup, ih]

/-! ## C6 — duplicate-submission lockout window -/

/-- C6: `checkDuplicatePrevention()` returns true iff a lockout marker is
persisted (non-empty, parsing to a valid date) and the elapsed time
`now - timestamp` is strictly below 24 hours; an absent marker, an
expired or unparsable marker, and a storage read error all yield false
(fail-open). -/
theorem c6_checkDuplicatePrevention_iff (readErr : Bool) (marker : Option String)
    (dateOf : String → Option ℚ) (now : ℚ) :
    checkDuplicatePrevention readErr marker dateOf now = true ↔
      readErr = false ∧ ∃ ts t, marker = some ts ∧ ts ≠ "" ∧ dateOf ts = some t ∧
        (now - t) / (1000 * 60 * 60) < 24 := by
  unfold checkDuplicatePrevention
  cases readErr with
  | true => simp
  | false =>
    cases marker with
    | none => simp
    | some ts =>
      by_cases h : ts = ""
      · simp [h]
      · cases hd : dateOf ts with
        | none => simp [h, hd]
        | some t => simp [h, hd]

/-! ## C7 — retrying delivery with exponential backoff -/

theorem attemptSubmit_attempts_le (deliver : ℕ → Bool) (m : ℕ) :
    ∀ k a, m - a ≤ k → (attemptSubmit deliver m a).2.2 ≤ max m (a + 1) := by
  intro k
  induction k with
  | zero =>
    intro a hk
    unfold attemptSubmit
    by_cases hd : deliver (a + 1) = true
    · simp [hd]
    · simp only [hd, Bool.false_eq_true, if_false]
      rw [dif_neg (by omega)]
      simp
  | succ k ih =>
    intro a hk
    unfold attemptSubmit
    by_cases hd : deliver (a + 1) = true
    · simp [hd]
    · simp only [hd, Bool.false_eq_true, if_false]
      by_cases hlt : a + 1 < m
      · rw [dif_pos hlt]
        have hr := ih (a + 1) (by omega)
        dsimp only
        have h2 : m ⊔ (a + 1 + 1) = m := Nat.max_eq_left (by omega)
        have h3 : m ⊔ (a + 1) = m := Nat.max_eq_left (by omega)
        omega
      · rw [dif_neg hlt]
        simp

/-- C7: delivery is retried at most 3 times, sequentially, with a delay of
`2^(attempt-1)` seconds (1000 ms, 2000 ms) after each failed non-final
attempt; a capability failing on attempts 1 and 2 and succeeding on 3
yields overall success with exactly those two delays; three failures
yield the localized exhausted-retries error. -/
theorem c7_submitWithRetry :
    (∀ deliver : ℕ → Bool, (submitWithRetry deliver 3).2.2 ≤ 3) ∧
    submitWithRetry (fun n => decide (3 ≤ n)) 3 = (.ok (), [1000, 2000], 3) ∧
    submitWithRetry (fun _ => false) 3 = (.error retryEsaurito, [1000, 2000], 3) := by
  refine ⟨fun deliver => ?_, ?_, ?_⟩
  · have h := attemptSubmit_attempts_le deliver 3 3 0 (by omega)
    unfold submitWithRetry
    simpa using h
  · unfold submitWithRetry
    rw [attemptSubmit]
    norm_num
    rw [attemptSubmit]
    norm_num
    rw [attemptSubmit]
    norm_num
  · unfold submitWithRetry
    rw [attemptSubmit]
    norm_num
    rw [attemptSubmit]
    norm_num
    rw [attemptSubmit]
    norm_num

/-! ## C9 — privacyAccettata is unconditional in the payload -/

/-- C9: for every form data value, the flattened submission record carries
`privacyAccettata = true`, regardless of any consent field; consent is
enforced only by the submit handler's guards (the idempotency flag and
the checkbox), which block the submission path, never the payload
content. -/
theorem c9_privacy_unconditional :
    (∀ formData : JVal,
      (flattenFormData formData).lookup "privacyAccettata" = some (.bool true)) ∧
    (∀ cb, handleSubmitProceeds true cb = false) ∧
    handleSubmitProceeds false none = false ∧
    handleSubmitProceeds false (some false) = false ∧
    handleSubmitProceeds false (some true) = true := by
  refine ⟨fun formData => ?_, fun cb => rfl, rfl, rfl, rfl⟩
  exact lookup_setF_self _ _ _

/-! ## Shared facts about saveState -/

theorem saveState_state (st : FormStateRec) (e : Env) :
    (saveState st e).1 = { st with lastUpdated := .str e.now } := by
  unfold saveState
  split
  · rfl
  · split
    · split
      · rfl
      · rfl
    · rfl

theorem saveState_store_ok (st : FormStateRec) (e : Env)
    (ha : e.available = true) (hw : e.writeFails = false) :
    (saveState st e).2.1.store
      = some (.json (serializeState { st with lastUpdated := .str e.now })) := by
  simp [saveState, ha, hw]

theorem saveState_store_cases (st : FormStateRec) (e : Env) :
    (saveState st e).2.1.store = e.store ∨
    (saveState st e).2.1.store
      = some (.json (serializeState { st with lastUpdated := .str e.now })) := by
  unfold saveState
  split
  · exact Or.inl rfl
  · split
    · split
      · exact Or.inl rfl
      · exact Or.inl rfl
    · exact Or.inr rfl

/-! ## C2 — setCurrentStep's guard (corrected) -/

/-- C2 counterexample: the claim says `setCurrentStep(n)` is a no-op for
every non-integer `n` (such as 2.5) — but the code only checks
`typeof n === 'number'` and the range comparisons, so 2.5 (a non-integer
in range) is accepted and stored, and NaN (which fails both comparisons)
is accepted as well; the prior value 0 is not retained. -/
theorem c2_counterexample :
    (setCurrentStep defaultState env0 (.num (5 / 2))).1.currentStep = .num (5 / 2) ∧
    defaultState.currentStep = .num 0 ∧
    ((5 / 2 : ℚ) ≠ 0 ∧ (5 / 2 : ℚ).den = 2) ∧
    (setCurrentStep defaultState env0 .nan).1.currentStep = .nan := by
  refine ⟨?_, rfl, ⟨by norm_num, by norm_num⟩, ?_⟩
  · simp [setCurrentStep, JVal.isNumber, JVal.jsLt, JVal.jsGe, JVal.toNum, defaultState,
      env0, saveState]
    norm_num
  · simp [setCurrentStep, JVal.isNumber, JVal.jsLt, JVal.jsGe, JVal.toNum, defaultState,
      env0, saveState]

/-- C2 amended: `setCurrentStep(n)` is a no-op — prior `currentStep` kept,
nothing persisted — exactly when `n` is not a number or `n < 0` or
`n ≥ 7` evaluates true; every number for which both comparisons are false
(all of `[0, 7)`, non-integers such as 2.5 included, and NaN) is accepted,
stored and persisted.  Integrality is never checked. -/
theorem c2_setCurrentStep_amended (st : FormStateRec) (e : Env) (n : JVal)
    (ht : st.totalSteps = .num 7) :
    (n.isNumber = false → setCurrentStep st e n = (st, e)) ∧
    (∀ q : ℚ, n = .num q → q < 0 ∨ 7 ≤ q → setCurrentStep st e n = (st, e)) ∧
    (∀ q : ℚ, n = .num q → 0 ≤ q → q < 7 →
      (setCurrentStep st e n).1 = { st with currentStep := n, lastUpdated := .str e.now } ∧
      (e.available = true → e.writeFails = false →
        (setCurrentStep st e n).2.store = some (.json (serializeState
          { st with currentStep := n, lastUpdated := .str e.now })))) ∧
    (setCurrentStep st e .nan).1
      = { st with currentStep := .nan, lastUpdated := .str e.now } := by
  refine ⟨?_, ?_, ?_, ?_⟩
  · intro hn
    simp [setCurrentStep, hn]
  · rintro q rfl hq
    have : (decide (q < 0) || JVal.jsGe (.num q) st.totalSteps) = true := by
      rw [ht]
      rcases hq with h | h
      · simp [JVal.jsGe, JVal.toNum, h]
      · simp [JVal.jsGe, JVal.toNum, h]
    simp [setCurrentStep, JVal.isNumber, JVal.jsLt, JVal.toNum] at this ⊢
    rcases this with h | h
    · simp [h]
    · simp [h]
  · rintro q rfl hq0 hq7
    have h1 : JVal.jsLt (.num q) (.num 0) = false := by
      simp [JVal.jsLt, JVal.toNum]
      exact hq0
    have h2 : JVal.jsGe (.num q) st.totalSteps = false := by
      rw [ht]
      simp [JVal.jsGe, JVal.toNum]
      exact hq7
    constructor
    · simp [setCurrentStep, JVal.isNumber, h1, h2, saveState_state]
    · intro ha hw
      simp [setCurrentStep, JVal.isNumber, h1, h2]
      rw [saveState_store_ok _ _ ha hw]
  · have h1 : JVal.jsLt .nan (.num 0) = false := rfl
    have h2 : JVal.jsGe .nan st.totalSteps = false := by
      simp [JVal.jsGe, JVal.toNum]
    simp [setCurrentStep, JVal.isNumber, h1, h2, saveState_state]

/-- Witness for the amended C2 theorem at the in-range number 3 from the
default state. -/
theorem c2_setCurrentStep_amended_witness :
    (setCurrentStep defaultState env0 (.num 3)).1
      = { defaultState with currentStep := .num 3, lastUpdated := .str env0.now } :=
  ((c2_setCurrentStep_amended defaultState env0 (.num 3) rfl).2.2.1 3 rfl
    (by norm_num) (by norm_num)).1

/-! ## C4 — loadState's corruption handling -/

/-- C4: with storage available, `loadState()` returns false and leaves the
in-memory state untouched when no record is persisted; when the payload is
invalid JSON, parses to a non-object, or parses to an object whose
`formData` is missing (or falsy), it additionally removes the corrupt
record; it returns true only for a record with a truthy `formData` field,
which then replaces the in-memory state wholesale. -/
theorem c4_loadState (st : FormStateRec) (e : Env) (ha : e.available = true) :
    (∀ s, e.store = some (.rawInvalid s) →
        loadState st e = (st, { e with store := none }, false)) ∧
    (∀ v, e.store = some (.json v) → v.truthy = false ∨ v.typeofObject = false →
        loadState st e = (st, { e with store := none }, false)) ∧
    (∀ v, e.store = some (.json v) → (v.get "formData").truthy = false →
        loadState st e = (st, { e with store := none }, false)) ∧
    (e.store = none → loadState st e = (st, e, false)) ∧
    (∀ v, e.store = some (.json v) → v.truthy = true → v.typeofObject = true →
        (v.get "formData").truthy = true →
        loadState st e = (recordToState v, e, true)) ∧
    ((loadState st e).2.2 = true →
        ∃ v, e.store = some (.json v) ∧ (v.get "formData").truthy = true ∧
          (loadState st e).1 = recordToState v) := by
  refine ⟨?_, ?_, ?_, ?_, ?_, ?_⟩
  · intro s hs
    simp [loadState, ha, hs]
  · intro v hs hv
    rcases hv with hv | hv <;> simp [loadState, ha, hs, corruptRecord, hv]
  · intro v hs hv
    simp [loadState, ha, hs, corruptRecord, hv]
  · intro hs
    simp [loadState, ha, hs]
  · intro v hs h1 h2 h3
    simp [loadState, ha, hs, corruptRecord, h1, h2, h3]
  · intro htrue
    cases hs : e.store with
    | none => simp [loadState, ha, hs] at htrue
    | some stored =>
      cases stored with
      | rawInvalid s => simp [loadState, ha, hs] at htrue
      | json v =>
        by_cases hc : corruptRecord v = true
        · simp [loadState, ha, hs, hc] at htrue
        · have hc' : corruptRecord v = false := Bool.not_eq_true _ |>.mp hc
          have hfd : (v.get "formData").truthy = true := by
            by_contra hf
            have hft : (v.get "formData").truthy = false := Bool.not_eq_true _ |>.mp hf
            have : corruptRecord v = true := by simp [corruptRecord, hft]
            rw [this] at hc'
            exact Bool.noConfusion hc'
          exact ⟨v, rfl, hfd, by simp [loadState, ha, hs, hc']⟩

/-- Witness for C4 at a persisted record that is valid JSON but lacks a
`formData` key: false is returned, the state is kept, the record removed. -/
theorem c4_loadState_witness :
    loadState defaultState { env0 with store := some (.json (.obj [("foo", .num 1)])) }
      = (defaultState, { env0 with store := none }, false) :=
  (c4_loadState defaultState
    { env0 with store := some (.json (.obj [("foo", .num 1)])) } rfl).2.2.1
    (.obj [("foo", .num 1)]) rfl (by rfl)

/-! ## C10 — loadState does not validate the restored step -/

/-- C10: a structurally valid persisted record is installed wholesale:
whatever its `currentStep` holds — any out-of-range number, NaN, or a
non-number — `loadState()` returns true and `getCurrentStep()` then
returns that value unchanged; the range check happens only in the
bootstrap's `savedStep >= 0 && savedStep < 7`, which falls back to step 0
for out-of-range numbers and NaN. -/
theorem c10_loadState_unvalidated (st : FormStateRec) (e : Env)
    (fs : List (String × JVal)) (v : JVal)
    (ha : e.available = true)
    (hstore : e.store = some (.json (.obj fs)))
    (hfd : ((JVal.obj fs).get "formData").truthy = true)
    (hcs : (JVal.obj fs).get "currentStep" = v) :
    (loadState st e).2.2 = true ∧
    getCurrentStep (loadState st e).1 = v ∧
    (∀ q : ℚ, v = .num q → q < 0 ∨ 7 ≤ q → bootStartStep true v = .num 0) ∧
    (v = .nan → bootStartStep true v = .num 0) := by
  have hcorr : corruptRecord (.obj fs) = false := by
    unfold corruptRecord
    rw [hfd]
    rfl
  refine ⟨?_, ?_, ?_, ?_⟩
  · simp [loadState, ha, hstore, hcorr]
  · simp [loadState, ha, hstore, hcorr, getCurrentStep, recordToState, hcs]
  · rintro q rfl hq
    rcases hq with h | h
    · have hge : JVal.jsGe (.num q) (.num 0) = false := by
        simp [JVal.jsGe, JVal.toNum]
        exact h
      simp [bootStartStep, hge]
    · have hlt : JVal.jsLt (.num q) (.num 7) = false := by
        simp [JVal.jsLt, JVal.toNum]
        exact h
      simp [bootStartStep, hlt]
  · rintro rfl
    simp [bootStartStep, JVal.jsGe, JVal.toNum]

/-- Witness for C10 at a valid record whose `currentStep` is 99. -/
theorem c10_loadState_unvalidated_witness :
    getCurrentStep (loadState defaultState
        { env0 with store := some (.json recC10) }).1 = .num 99 ∧
    bootStartStep true (.num 99) = .num 0 := by
  have h := c10_loadState_unvalidated defaultState
    { env0 with store := some (.json recC10) }
    [("formData", .obj [("step0", .obj [])]), ("currentStep", .num 99)] (.num 99)
    rfl rfl rfl rfl
  exact ⟨h.2.1, h.2.2.1 99 rfl (Or.inr (by norm_num))⟩

/-! ## C3 — navigateForward's validation gate -/

theorem setCurrentStep_sets (st : FormStateRec) (e : Env) (q : ℚ)
    (h1 : JVal.jsLt (.num q) (.num 0) = false)
    (h2 : JVal.jsGe (.num q) st.totalSteps = false) :
    (setCurrentStep st e (.num q)).1
      = { st with currentStep := .num q, lastUpdated := .str e.now } := by
  simp [setCurrentStep, JVal.isNumber, h1, h2, saveState_state]

/-- C3: `navigateForward()` is a no-op (state and storage untouched) when
`currentStep ≥ 6`; for `currentStep` in `1..5` it consults the validation
gate and leaves everything unchanged when the gate fails; when the gate
passes — and unconditionally from step 0, where the gate is skipped —
`currentStep` becomes `currentStep + 1`. -/
theorem c3_navigateForward (g : JVal → Bool) (st : FormStateRec) (e : Env) (c : ℤ)
    (hc : st.currentStep = .num (c : ℚ)) (ht : st.totalSteps = .num 7) :
    (6 ≤ c → navigateForward (some g) st e = (st, e)) ∧
    (1 ≤ c → c ≤ 5 → g (.num (c : ℚ)) = false → navigateForward (some g) st e = (st, e)) ∧
    (1 ≤ c → c ≤ 5 → g (.num (c : ℚ)) = true →
      (navigateForward (some g) st e).1.currentStep = .num ((c : ℚ) + 1)) ∧
    (c = 0 → (navigateForward (some g) st e).1.currentStep = .num 1) := by
  refine ⟨?_, ?_, ?_, ?_⟩
  · intro h
    have hge : JVal.jsGe (.num (c : ℚ)) (.num 6) = true := by
      simp [JVal.jsGe, JVal.toNum]
      exact_mod_cast h
    simp [navigateForward, getCurrentStep, hc, hge]
  · intro h1 h5 hg
    have hge : JVal.jsGe (.num (c : ℚ)) (.num 6) = false := by
      simp [JVal.jsGe, JVal.toNum]
      exact_mod_cast (by omega : c < 6)
    have hgt : JVal.jsGt (.num (c : ℚ)) (.num 0) = true := by
      simp [JVal.jsGt, JVal.toNum]
      exact_mod_cast (by omega : (0 : ℤ) < c)
    have hlt : JVal.jsLt (.num (c : ℚ)) (.num 6) = true := by
      simp [JVal.jsLt, JVal.toNum]
      exact_mod_cast (by omega : c < 6)
    simp [navigateForward, getCurrentStep, hc, hge, hgt, hlt, hg]
  · intro h1 h5 hg
    have hge : JVal.jsGe (.num (c : ℚ)) (.num 6) = false := by
      simp [JVal.jsGe, JVal.toNum]
      exact_mod_cast (by omega : c < 6)
    have hgt : JVal.jsGt (.num (c : ℚ)) (.num 0) = true := by
      simp [JVal.jsGt, JVal.toNum]
      exact_mod_cast (by omega : (0 : ℤ) < c)
    have hlt : JVal.jsLt (.num (c : ℚ)) (.num 6) = true := by
      simp [JVal.jsLt, JVal.toNum]
      exact_mod_cast (by omega : c < 6)
    have hadd : JVal.jsAdd (.num (c : ℚ)) (.num 1) = .num ((c : ℚ) + 1) := by
      simp [JVal.jsAdd, JVal.toNum]
    have hl : JVal.jsLt (.num ((c : ℚ) + 1)) (.num 0) = false := by
      simp [JVal.jsLt, JVal.toNum]
      exact_mod_cast (by omega : (0 : ℤ) ≤ c + 1)
    have hge7 : JVal.jsGe (.num ((c : ℚ) + 1)) st.totalSteps = false := by
      rw [ht]
      simp [JVal.jsGe, JVal.toNum]
      exact_mod_cast (by omega : c + 1 < 7)
    rw [navigateForward]
    simp only [getCurrentStep, hc, hge, hgt, hlt, hg, Bool.false_eq_true, if_false,
      Bool.and_self, if_true, showStepState, hadd]
    rw [setCurrentStep_sets st e ((c : ℚ) + 1) hl hge7]
  · rintro rfl
    have hge : JVal.jsGe (.num ((0 : ℤ) : ℚ)) (.num 6) = false := by
      simp [JVal.jsGe, JVal.toNum]
    have hgt : JVal.jsGt (.num ((0 : ℤ) : ℚ)) (.num 0) = false := by
      simp [JVal.jsGt, JVal.toNum]
    have hadd : JVal.jsAdd (.num ((0 : ℤ) : ℚ)) (.num 1) = .num 1 := by
      simp [JVal.jsAdd, JVal.toNum]
    have hl : JVal.jsLt (.num (1 : ℚ)) (.num 0) = false := by
      simp [JVal.jsLt, JVal.toNum]
    have hge7 : JVal.jsGe (.num (1 : ℚ)) st.totalSteps = false := by
      rw [ht]
      simp [JVal.jsGe, JVal.toNum]
    rw [navigateForward]
    simp only [getCurrentStep, hc, hge, hgt, Bool.false_eq_true, if_false,
      Bool.false_and, showStepState, hadd]
    rw [setCurrentStep_sets st e 1 hl hge7]

/-- Witness for C3: from step 2 with a failing gate nothing changes; with a
passing gate the step becomes 3. -/
theorem c3_navigateForward_witness :
    navigateForward (some (fun _ => false))
        { defaultState with currentStep := .num 2 } env0
      = ({ defaultState with currentStep := .num 2 }, env0) ∧
    (navigateForward (some (fun _ => true))
        { defaultState with currentStep := .num 2 } env0).1.currentStep = .num 3 := by
  constructor
  · exact (c3_navigateForward (fun _ => false)
      { defaultState with currentStep := .num 2 } env0 2 (by norm_num) rfl).2.1
      (by norm_num) (by norm_num) rfl
  · have h := (c3_navigateForward (fun _ => true)
      { defaultState with currentStep := .num 2 } env0 2 (by norm_num) rfl).2.2.1
      (by norm_num) (by norm_num) rfl
    norm_num at h
    exact h

/-! ## C8 — address assembly in flattenFormData (corrected) -/

theorem concat_space_ne_empty (a b : String) : a ++ " " ++ b ≠ "" := by
  intro h
  have hm : ' ' ∈ (a ++ " " ++ b).data := by
    simp [String.data_append]
  rw [h] at hm
  exact absurd hm (by decide)

theorem concat_space_ne_parens (a b : String) : a ++ " " ++ b ≠ "()" := by
  intro h
  have hm : ' ' ∈ (a ++ " " ++ b).data := by
    simp [String.data_append]
  rw [h] at hm
  exact absurd hm (by decide)

theorem paren_wrap_ne_empty (s : String) : "(" ++ s ++ ")" ≠ "" := by
  intro h
  have hm : '(' ∈ ("(" ++ s ++ ")").data := by
    simp [String.data_append]
  rw [h] at hm
  exact absurd hm (by decide)

theorem paren_wrap_eq_parens (s : String) : ("(" ++ s ++ ")" = "()") ↔ s = "" := by
  constructor
  · intro h
    have h2 := congrArg String.data h
    simp [String.data_append] at h2
    cases hs : s.data with
    | nil => cases s; simp_all
    | cons c rest => rw [hs] at h2; simp at h2
  · rintro rfl
    rfl

/-- C8 counterexample: with `via-residenza` and `citta-residenza` present
but `cap-residenza` (and `civico`, `provincia`) absent, the assembled
address is `"Via Roma, undefined Roma, (undefined)"` — the missing `cap`
and `provincia` components are rendered as the placeholder text
`undefined` instead of being omitted, so the string does not contain only
the non-empty components. -/
theorem c8_counterexample :
    (flattenFormData fdC8).lookup "indirizzoPersonale"
      = some (.str "Via Roma, undefined Roma, (undefined)") ∧
    "Via Roma, undefined Roma, (undefined)" ≠ "Via Roma, Roma" := by
  refine ⟨rfl, by decide⟩

/-- What the address assembly actually produces: `via` is kept (when it
is truthy and not the literal `"()"`); `civico` is kept iff truthy and
not `"()"`; the `cap + ' ' + citta` segment is always kept, with absent
components rendered by ToString as `undefined`; the `(provincia)` segment
is dropped only when it renders exactly `"()"`, i.e. when `provincia`
renders as the empty string (an absent `provincia` renders
`"(undefined)"` and is kept). -/
theorem addrValue_eq (st1 : List (String × JVal)) (via civ cap cit prov : String)
    (hvia : ((JVal.obj st1).get via).truthy = true)
    (hviap : ((JVal.obj st1).get via).strictEqStr "()" = false) :
    addrValue (.obj st1) via civ cap cit prov = some
      (String.intercalate ", "
        ([((JVal.obj st1).get via).jsToString]
          ++ (if (((JVal.obj st1).get civ).truthy
                && !(((JVal.obj st1).get civ).strictEqStr "()")) = true
              then [((JVal.obj st1).get civ).jsToString] else [])
          ++ [((JVal.obj st1).get cap).jsToString ++ " "
              ++ ((JVal.obj st1).get cit).jsToString]
          ++ (if ((JVal.obj st1).get prov).jsToString = "" then []
              else ["(" ++ ((JVal.obj st1).get prov).jsToString ++ ")"]))) := by
  have hcc1 : (JVal.str (((JVal.obj st1).get cap).jsToString ++ " "
      ++ ((JVal.obj st1).get cit).jsToString)).truthy = true := by
    simp [JVal.truthy, bne_iff_ne, concat_space_ne_empty]
  have hcc2 : (JVal.str (((JVal.obj st1).get cap).jsToString ++ " "
      ++ ((JVal.obj st1).get cit).jsToString)).strictEqStr "()" = false := by
    simp [JVal.strictEqStr, concat_space_ne_parens]
  have hpp1 : (JVal.str ("(" ++ ((JVal.obj st1).get prov).jsToString ++ ")")).truthy
      = true := by
    simp [JVal.truthy, bne_iff_ne, paren_wrap_ne_empty]
  unfold addrValue
  by_cases hciv : (((JVal.obj st1).get civ).truthy
      && !(((JVal.obj st1).get civ).strictEqStr "()")) = true
  · by_cases hp : ((JVal.obj st1).get prov).jsToString = ""
    · have hpp2 : (JVal.str ("(" ++ ((JVal.obj st1).get prov).jsToString ++ ")")).strictEqStr "()"
          = true := by
        simp [JVal.strictEqStr, paren_wrap_eq_parens, hp]
      simp only [List.filter_cons, List.filter_nil, hvia, hviap, hcc1, hcc2, hpp1, hpp2,
        hciv, Bool.not_false, Bool.not_true, Bool.and_self, Bool.and_true, Bool.true_and,
        Bool.and_false, Bool.false_and, if_true, if_false, Bool.false_eq_true,
        eq_self_iff_true, ite_true, ite_false]
      rw [if_pos hp]
      simp [JVal.jsToString]
    · have hpp2 : (JVal.str ("(" ++ ((JVal.obj st1).get prov).jsToString ++ ")")).strictEqStr "()"
          = false := by
        simp [JVal.strictEqStr, paren_wrap_eq_parens, hp]
      simp only [List.filter_cons, List.filter_nil, hvia, hviap, hcc1, hcc2, hpp1, hpp2,
        hciv, Bool.not_false, Bool.not_true, Bool.and_self, Bool.and_true, Bool.true_and,
        Bool.and_false, Bool.false_and, if_true, if_false, Bool.false_eq_true,
        eq_self_iff_true, ite_true, ite_false]
      rw [if_neg hp]
      simp [JVal.jsToString]
  · have hcivf : (((JVal.obj st1).get civ).truthy
        && !(((JVal.obj st1).get civ).strictEqStr "()")) = false :=
      Bool.eq_false_iff.mpr hciv
    by_cases hp : ((JVal.obj st1).get prov).jsToString = ""
    · have hpp2 : (JVal.str ("(" ++ ((JVal.obj st1).get prov).jsToString ++ ")")).strictEqStr "()"
          = true := by
        simp [JVal.strictEqStr, paren_wrap_eq_parens, hp]
      simp only [List.filter_cons, List.filter_nil, hvia, hviap, hcc1, hcc2, hpp1, hpp2,
        hcivf, Bool.not_false, Bool.not_true, Bool.and_self, Bool.and_true, Bool.true_and,
        Bool.and_false, Bool.false_and, if_true, if_false, Bool.false_eq_true,
        eq_self_iff_true, ite_true, ite_false]
      rw [if_pos hp]
      simp [JVal.jsToString]
    · have hpp2 : (JVal.str ("(" ++ ((JVal.obj st1).get prov).jsToString ++ ")")).strictEqStr "()"
          = false := by
        simp [JVal.strictEqStr, paren_wrap_eq_parens, hp]
      simp only [List.filter_cons, List.filter_nil, hvia, hviap, hcc1, hcc2, hpp1, hpp2,
        hcivf, Bool.not_false, Bool.not_true, Bool.and_self, Bool.and_true, Bool.true_and,
        Bool.and_false, Bool.false_and, if_true, if_false, Bool.false_eq_true,
        eq_self_iff_true, ite_true, ite_false]
      rw [if_neg hp]
      simp [JVal.jsToString]

theorem flatten_lookup_personale (flat0 : List (String × JVal)) (s : String)
    (a2 : Option String) :
    (setF (match a2 with
      | some t => setF (setF flat0 "indirizzoPersonale" (.str s)) "indirizzoImmobile" (.str t)
      | none => setF flat0 "indirizzoPersonale" (.str s)) "privacyAccettata"
        (.bool true)).lookup "indirizzoPersonale" = some (.str s) := by
  cases a2 with
  | none =>
    rw [lookup_setF_ne _ "privacyAccettata" "indirizzoPersonale" _ (by decide)]
    exact lookup_setF_self _ _ _
  | some t =>
    rw [lookup_setF_ne _ "privacyAccettata" "indirizzoPersonale" _ (by decide),
      lookup_setF_ne _ "indirizzoImmobile" "indirizzoPersonale" _ (by decide)]
    exact lookup_setF_self _ _ _

/-- C8 amended: when `formData.step1` is an object whose `via-residenza`
is truthy (and not the literal `"()"`), the flattened record's
`indirizzoPersonale` is the `', '`-join of: the `via` text; the `civico`
text iff `civico` is truthy and not `"()"`; always the
`cap + ' ' + citta` segment, absent components rendered `undefined`; and
the `(provincia)` segment unless `provincia` renders as the empty string.
Empty components are thus only partially omitted: the claim's full
omission holds for `civico` and for an empty-string `provincia`, but the
`cap`/`citta` segment is always present and absent components surface as
`undefined` placeholder text.  (`indirizzoImmobile` is assembled from
`step2` by the same code with the `-immobile` field names.) -/
theorem c8_flatten_amended (fds st1 : List (String × JVal))
    (hstep1 : (JVal.obj fds).get "step1" = .obj st1)
    (hvia : ((JVal.obj st1).get "via-residenza").truthy = true)
    (hviap : ((JVal.obj st1).get "via-residenza").strictEqStr "()" = false) :
    (flattenFormData (.obj fds)).lookup "indirizzoPersonale" = some (.str
      (String.intercalate ", "
        ([((JVal.obj st1).get "via-residenza").jsToString]
          ++ (if (((JVal.obj st1).get "civico-residenza").truthy
                && !(((JVal.obj st1).get "civico-residenza").strictEqStr "()")) = true
              then [((JVal.obj st1).get "civico-residenza").jsToString] else [])
          ++ [((JVal.obj st1).get "cap-residenza").jsToString ++ " "
              ++ ((JVal.obj st1).get "citta-residenza").jsToString]
          ++ (if ((JVal.obj st1).get "provincia-residenza").jsToString = "" then []
              else ["(" ++ ((JVal.obj st1).get "provincia-residenza").jsToString ++ ")"])))) := by
  have haddr := addrValue_eq st1 "via-residenza" "civico-residenza" "cap-residenza"
    "citta-residenza" "provincia-residenza" hvia hviap
  unfold flattenFormData
  rw [hstep1]
  simp only [JVal.truthy, if_true, haddr]
  exact flatten_lookup_personale _ _ _

/-- Witness for the amended C8 theorem at the counterexample's form data:
the characterization evaluates to the observed string. -/
theorem c8_flatten_amended_witness :
    (flattenFormData fdC8).lookup "indirizzoPersonale"
      = some (.str "Via Roma, undefined Roma, (undefined)") := by
  have h := c8_flatten_amended
    [("step1", .obj [("via-residenza", .str "Via Roma"), ("citta-residenza", .str "Roma")])]
    [("via-residenza", .str "Via Roma"), ("citta-residenza", .str "Roma")] rfl rfl rfl
  rw [show fdC8 = JVal.obj [("step1", .obj
    [("via-residenza", .str "Via Roma"), ("citta-residenza", .str "Roma")])] from rfl]
  rw [h]
  rfl

/-! ## C1 — the step-key set of formData (corrected) -/

theorem map_fst_setF_mem (fs : List (String × JVal)) (k : String) (v : JVal)
    (h : k ∈ fs.map Prod.fst) : (setF fs k v).map Prod.fst = fs.map Prod.fst := by
  induction fs with
  | nil => simp at h
  | cons p rest ih =>
    obtain ⟨g, w⟩ := p
    by_cases hg : g = k
    · simp [setF, hg]
    · have h2 : k ∈ rest.map Prod.fst := by
        simp only [List.map_cons, List.mem_cons] at h
        rcases h with h3 | h3
        · exact absurd h3 (Ne.symm hg)
        · exact h3
      simp [setF, hg, ih h2]

theorem all_setF (P : String × JVal → Bool) (fs : List (String × JVal)) (k : String)
    (v : JVal) (hall : fs.all P = true) (hv : P (k, v) = true) :
    (setF fs k v).all P = true := by
  induction fs with
  | nil => simp [setF, hv]
  | cons p rest ih =>
    obtain ⟨g, w⟩ := p
    simp only [List.all_cons, Bool.and_eq_true] at hall
    by_cases hg : g = k
    · simp [setF, hg, hv, hall.2]
    · simp [setF, hg, hall.1, ih hall.2]

theorem serializeVal_not_undef (v : JVal) : (serializeVal v).isUndef = false := by
  cases v <;> simp [serializeVal, JVal.isUndef]

theorem map_fst_serializeObj (fs : List (String × JVal))
    (h : fs.all (fun p => !p.2.isUndef) = true) :
    (serializeObj fs).map Prod.fst = fs.map Prod.fst := by
  induction fs with
  | nil => rfl
  | cons p rest ih =>
    obtain ⟨k, v⟩ := p
    simp only [List.all_cons, Bool.and_eq_true] at h
    cases v
    case undef => simp [JVal.isUndef] at h
    all_goals simp [serializeObj, ih h.2]

theorem all_not_undef_serializeObj (fs : List (String × JVal)) :
    (serializeObj fs).all (fun p => !p.2.isUndef) = true := by
  induction fs with
  | nil => rfl
  | cons p rest ih =>
    obtain ⟨k, v⟩ := p
    cases v <;> simp [serializeObj, serializeVal_not_undef, ih]

theorem lookup_some_of_mem_keys (fs : List (String × JVal)) (k : String)
    (h : k ∈ fs.map Prod.fst) : ∃ w, fs.lookup k = some w := by
  induction fs with
  | nil => simp at h
  | cons p rest ih =>
    obtain ⟨g, w⟩ := p
    by_cases hg : g = k
    · subst hg
      exact ⟨w, by simp [List.lookup]⟩
    · have h2 : k ∈ rest.map Prod.fst := by
        simp only [List.map_cons, List.mem_cons] at h
        rcases h with h3 | h3
        · exact absurd h3 (Ne.symm hg)
        · exact h3
      obtain ⟨u, hu⟩ := ih h2
      exact ⟨u, by simp [List.lookup, beq_false_of_ne (Ne.symm hg), hu]⟩

theorem lookup_serializeObj (fs : List (String × JVal)) (k : String) (w : JVal)
    (hw : fs.lookup k = some w) (hne : w.isUndef = false) :
    (serializeObj fs).lookup k = some (serializeVal w) := by
  induction fs with
  | nil => simp [List.lookup] at hw
  | cons p rest ih =>
    obtain ⟨g, u⟩ := p
    by_cases hg : (k == g) = true
    · simp only [List.lookup, hg] at hw
      have huw : u = w := by simpa using hw
      subst huw
      cases u with
      | undef => simp [JVal.isUndef] at hne
      | null => simp [serializeObj, List.lookup, hg]
      | bool b => simp [serializeObj, List.lookup, hg]
      | nan => simp [serializeObj, List.lookup, hg]
      | num q => simp [serializeObj, List.lookup, hg]
      | str s => simp [serializeObj, List.lookup, hg]
      | arr es => simp [serializeObj, List.lookup, hg]
      | obj ofs => simp [serializeObj, List.lookup, hg]
    · have hg2 : (k == g) = false := Bool.eq_false_iff.mpr hg
      simp only [List.lookup, hg2] at hw
      cases u <;> simp [serializeObj, List.lookup, hg2, ih hw]

theorem FDokB_elim (v : JVal) (h : FDokB v = true) :
    ∃ fs, v = .obj fs ∧ permStd (fs.map Prod.fst) = true
      ∧ fs.all (fun p => !p.2.isUndef) = true := by
  cases v with
  | obj fs =>
    simp only [FDokB, Bool.and_eq_true] at h
    exact ⟨fs, rfl, h.1, h.2⟩
  | null => simp [FDokB] at h
  | undef => simp [FDokB] at h
  | bool b => simp [FDokB] at h
  | nan => simp [FDokB] at h
  | num q => simp [FDokB] at h
  | str s => simp [FDokB] at h
  | arr es => simp [FDokB] at h

theorem FDokB_intro (fs : List (String × JVal))
    (h1 : permStd (fs.map Prod.fst) = true)
    (h2 : fs.all (fun p => !p.2.isUndef) = true) : FDokB (.obj fs) = true := by
  simp [FDokB, h1, h2]

theorem permStd_mem (ks : List String) (h : permStd ks = true) (k : String)
    (hk : k ∈ stdStepKeys) : k ∈ ks := by
  unfold permStd at h
  simp only [Bool.and_eq_true, List.all_eq_true] at h
  have := h.1.1 k hk
  simpa [List.contains_iff_exists_mem_beq] using this

theorem serializeState_formData (st : FormStateRec) (fs : List (String × JVal))
    (hfd : st.formData = .obj fs) :
    (serializeState st).get "formData" = .obj (serializeObj fs) := by
  have hlook : (stateFields st).lookup "formData" = some st.formData := by
    simp [stateFields, List.lookup]
  have h2 : (serializeObj (stateFields st)).lookup "formData"
      = some (serializeVal st.formData) := by
    refine lookup_serializeObj _ _ _ hlook ?_
    rw [hfd]
    rfl
  show (serializeVal (.obj (stateFields st))).get "formData" = _
  simp only [serializeVal, JVal.get, h2, Option.getD_some]
  rw [hfd]
  rfl

theorem serializeState_storeOK (st : FormStateRec) (fs : List (String × JVal))
    (hfd : st.formData = .obj fs)
    (hkeys : permStd (fs.map Prod.fst) = true)
    (hvals : fs.all (fun p => !p.2.isUndef) = true) :
    storeOKB (some (.json (serializeState st))) = true := by
  have hget := serializeState_formData st fs hfd
  have hok : FDokB ((serializeState st).get "formData") = true := by
    rw [hget]
    exact FDokB_intro _ (by rw [map_fst_serializeObj fs hvals]; exact hkeys)
      (all_not_undef_serializeObj fs)
  simp [storeOKB, hok]

theorem saveState_preserves (st : FormStateRec) (e : Env)
    (hfd : FDokB st.formData = true) (hst : storeOKB e.store = true) :
    FDokB (saveState st e).1.formData = true
      ∧ storeOKB (saveState st e).2.1.store = true := by
  obtain ⟨fs, hfs, hkeys, hvals⟩ := FDokB_elim _ hfd
  constructor
  · rw [saveState_state]
    exact hfd
  · rcases saveState_store_cases st e with h | h
    · rw [h]; exact hst
    · rw [h]
      exact serializeState_storeOK _ fs hfs hkeys hvals

theorem lookup_value_all (Q : JVal → Bool) (fs : List (String × JVal)) (k : String)
    (w : JVal) (hall : fs.all (fun p => Q p.2) = true) (hw : fs.lookup k = some w) :
    Q w = true := by
  induction fs with
  | nil => simp [List.lookup] at hw
  | cons p rest ih =>
    obtain ⟨g, u⟩ := p
    simp only [List.all_cons, Bool.and_eq_true] at hall
    by_cases hg : (k == g) = true
    · simp only [List.lookup, hg] at hw
      have huw : u = w := by simpa using hw
      exact huw ▸ hall.1
    · have hg2 := Bool.eq_false_iff.mpr hg
      simp only [List.lookup, hg2] at hw
      exact ih hall.2 hw

theorem stepKey_mem_std (i : ℤ) (h0 : 0 ≤ i) (h6 : i ≤ 6) : stepKey i ∈ stdStepKeys := by
  interval_cases i <;> decide

theorem setFieldValue_cases (st : FormStateRec) (e : Env) (i : ℤ) (name : String)
    (v : JVal) (fs : List (String × JVal)) (hfs : st.formData = .obj fs) (w : JVal)
    (hw : fs.lookup (stepKey i) = some w) :
    setFieldValue st e i name v = (st, e) ∨
    ∃ inner,
      setFieldValue st e i name v
        = ((saveState { st with formData := JVal.obj (setF fs (stepKey i) (.obj (setF inner name v))) } e).1,
           (saveState { st with formData := JVal.obj (setF fs (stepKey i) (.obj (setF inner name v))) } e).2.1) := by
  simp only [setFieldValue, hfs, hw, Option.getD_some]
  split
  next inner heq => exact Or.inr ⟨inner, rfl⟩
  next => exact Or.inl rfl

theorem setFieldValue_preserves (st : FormStateRec) (e : Env) (i : ℤ) (name : String)
    (v : JVal) (hfd : FDokB st.formData = true) (hst : storeOKB e.store = true)
    (h0 : 0 ≤ i) (h6 : i ≤ 6) :
    FDokB (setFieldValue st e i name v).1.formData = true
      ∧ storeOKB (setFieldValue st e i name v).2.store = true := by
  obtain ⟨fs, hfs, hkeys, hvals⟩ := FDokB_elim _ hfd
  have hmem : stepKey i ∈ fs.map Prod.fst :=
    permStd_mem _ hkeys _ (stepKey_mem_std i h0 h6)
  obtain ⟨w, hw⟩ := lookup_some_of_mem_keys fs _ hmem
  rcases setFieldValue_cases st e i name v fs hfs w hw with h | ⟨inner, h⟩
  · rw [h]
    exact ⟨hfd, hst⟩
  · rw [h]
    have hnew : FDokB (.obj (setF fs (stepKey i) (.obj (setF inner name v)))) = true := by
      refine FDokB_intro _ ?_ ?_
      · rw [map_fst_setF_mem fs _ _ hmem]
        exact hkeys
      · exact all_setF _ fs _ _ hvals rfl
    exact saveState_preserves _ _ hnew hst

theorem setStepData_preserves (st : FormStateRec) (e : Env) (i : ℤ) (d : JVal)
    (hfd : FDokB st.formData = true) (hst : storeOKB e.store = true)
    (h0 : 0 ≤ i) (h6 : i ≤ 6) :
    FDokB (setStepData st e i d).1.formData = true
      ∧ storeOKB (setStepData st e i d).2.store = true := by
  obtain ⟨fs, hfs, hkeys, hvals⟩ := FDokB_elim _ hfd
  have hmem : stepKey i ∈ fs.map Prod.fst :=
    permStd_mem _ hkeys _ (stepKey_mem_std i h0 h6)
  unfold setStepData
  split
  · exact ⟨hfd, hst⟩
  · rw [hfs]
    have hnew : FDokB (.obj (setF fs (stepKey i) (serializeVal d))) = true := by
      refine FDokB_intro _ ?_ ?_
      · rw [map_fst_setF_mem fs _ _ hmem]
        exact hkeys
      · exact all_setF _ fs _ _ hvals (by rw [serializeVal_not_undef]; rfl)
    exact saveState_preserves _ _ hnew hst

theorem setCurrentStep_preserves (st : FormStateRec) (e : Env) (step : JVal)
    (hfd : FDokB st.formData = true) (hst : storeOKB e.store = true) :
    FDokB (setCurrentStep st e step).1.formData = true
      ∧ storeOKB (setCurrentStep st e step).2.store = true := by
  unfold setCurrentStep
  split
  · exact ⟨hfd, hst⟩
  · exact saveState_preserves _ _ hfd hst

theorem loadState_preserves (st : FormStateRec) (e : Env)
    (hfd : FDokB st.formData = true) (hst : storeOKB e.store = true) :
    FDokB (loadState st e).1.formData = true
      ∧ storeOKB (loadState st e).2.1.store = true := by
  unfold loadState
  split
  · exact ⟨hfd, hst⟩
  · cases hstore : e.store with
    | none => simp [hstore, hfd, storeOKB]
    | some stored =>
      cases stored with
      | rawInvalid s => simp [hstore, hfd, storeOKB]
      | json v =>
        rw [hstore] at hst
        by_cases hc : corruptRecord v = true
        · simp [hstore, hc, hfd, storeOKB]
        · have hc2 : corruptRecord v = false := Bool.eq_false_iff.mpr hc
          have hv : FDokB (v.get "formData") = true := by
            simp only [storeOKB, hc2, Bool.false_or] at hst
            exact hst
          simp [hstore, hc2, recordToState, hv, storeOKB]

theorem clearState_preserves (st : FormStateRec) (e : Env)
    (hst : storeOKB e.store = true) :
    FDokB (clearState st e).1.formData = true
      ∧ storeOKB (clearState st e).2.store = true := by
  have hdef : FDokB defaultState.formData = true := by decide
  unfold clearState
  split
  · exact ⟨hdef, hst⟩
  · exact ⟨hdef, rfl⟩

theorem runOp_preserves (se : FormStateRec × Env) (op : FOp)
    (hfd : FDokB se.1.formData = true) (hst : storeOKB se.2.store = true)
    (hop : opOKB op = true) :
    FDokB (runOp se op).1.formData = true ∧ storeOKB (runOp se op).2.store = true := by
  cases op with
  | setField i name v =>
    simp only [opOKB, decide_eq_true_eq] at hop
    exact setFieldValue_preserves se.1 se.2 i name v hfd hst hop.1 hop.2
  | setStep i d =>
    simp only [opOKB, decide_eq_true_eq] at hop
    exact setStepData_preserves se.1 se.2 i d hfd hst hop.1 hop.2
  | setCur v => exact setCurrentStep_preserves se.1 se.2 v hfd hst
  | load => exact loadState_preserves se.1 se.2 hfd hst
  | save => exact saveState_preserves se.1 se.2 hfd hst
  | clear => exact clearState_preserves se.1 se.2 hst

/-- C1 counterexample: the claim says no operation adds a step-key, but
`setFieldValue` has no range guard: calling it with step index 7 from the
default state creates the key `step7`, so `formData` no longer contains
exactly `step0..step6`.  (`loadState` likewise installs whatever key set
a structurally valid record carries.) -/
theorem c1_counterexample :
    (runOps (defaultState, env0) [.setField 7 "x" (.str "a")]).1.formData
      = .obj [ ("step0", .obj []), ("step1", .obj []), ("step2", .obj [])
             , ("step3", .obj []), ("step4", .obj []), ("step5", .obj [])
             , ("step6", .obj []), ("step7", .obj [("x", .str "a")]) ] ∧
    permStd (stdStepKeys ++ ["step7"]) = false ∧
    ("step7" ∈ stdStepKeys) = False := by
  refine ⟨rfl, by decide, by decide⟩

/-- C1 amended: for every sequence of public FormState operations from
the default state in which `setFieldValue`/`setStepData` only use step
indices in `0..6`, and in which the persisted store only ever holds
records that `loadState` rejects or whose `formData` is of the invariant
shape (exactly the seven step keys, no `undefined` values — true of every
record the module itself writes), the in-memory `formData` always
contains exactly the seven step-keys `step0..step6`: no such operation
adds or removes an individual step-key. -/
theorem c1_formData_keys (ops : List FOp) (e : Env)
    (hstore : storeOKB e.store = true) (hops : ops.all opOKB = true) :
    ∃ fs, (runOps (defaultState, e) ops).1.formData = .obj fs
      ∧ permStd (fs.map Prod.fst) = true := by
  have hrun : ∀ (l : List FOp) (se : FormStateRec × Env),
      FDokB se.1.formData = true → storeOKB se.2.store = true → l.all opOKB = true →
      FDokB (runOps se l).1.formData = true
        ∧ storeOKB (runOps se l).2.store = true := by
    intro l
    induction l with
    | nil =>
      intro se h1 h2 _
      exact ⟨h1, h2⟩
    | cons op rest ih =>
      intro se h1 h2 hall
      simp only [List.all_cons, Bool.and_eq_true] at hall
      have hstep := runOp_preserves se op h1 h2 hall.1
      have : runOps se (op :: rest) = runOps (runOp se op) rest := by
        simp [runOps]
      rw [this]
      exact ih (runOp se op) hstep.1 hstep.2 hall.2
  have h := hrun ops (defaultState, e)
    (by show FDokB defaultState.formData = true; decide) hstore hops
  obtain ⟨fs, hfs, hkeys, _⟩ := FDokB_elim _ h.1
  exact ⟨fs, hfs, hkeys⟩

/-- Witness for the amended C1 theorem on a six-operation sequence
exercising every operation kind. -/
theorem c1_formData_keys_witness :
    ∃ fs, (runOps (defaultState, env0)
        [.setField 2 "nome" (.str "Ada"), .setCur (.num 3), .save, .load,
         .setStep 4 (.obj [("referral-name", .str "Bo")]), .clear]).1.formData = .obj fs
      ∧ permStd (fs.map Prod.fst) = true :=
  c1_formData_keys _ env0 (by decide) (by decide)

/-! ## C5 — snapshot isolation of getState / getStepData -/

theorem lookupH_storeField (h : Heap) (a : ℕ) (f : String) (v : HVal) (b : ℕ) :
    lookupH (storeField h a f v) b
      = if b = a then (lookupH h b).map (fun ob => setFH ob f v) else lookupH h b := by
  induction h with
  | nil => simp [lookupH, storeField, List.lookup]
  | cons p rest ih =>
    obtain ⟨c, ob⟩ := p
    have hcons : storeField ((c, ob) :: rest) a f v
        = (c, if c = a then setFH ob f v else ob) :: storeField rest a f v := by
      simp only [storeField, List.map_cons]
      congr 1
      split <;> rfl
    rw [hcons]
    by_cases hbc : b = c
    · subst hbc
      by_cases hba : b = a
      · simp [lookupH, List.lookup, hba]
      · simp [lookupH, List.lookup, hba]
    · have hbc2 : (b == c) = false := beq_false_of_ne hbc
      simp only [lookupH, List.lookup, hbc2] at ih ⊢
      exact ih

theorem lookupH_none_of_heapAtLeast (frag : Heap) (n b : ℕ)
    (hf : heapAtLeast n frag = true) (hb : b < n) : lookupH frag b = none := by
  induction frag with
  | nil => rfl
  | cons p rest ih =>
    obtain ⟨c, ob⟩ := p
    simp only [heapAtLeast, List.all_cons, Bool.and_eq_true, decide_eq_true_eq] at hf
    have hbc : (b == c) = false := beq_false_of_ne (by omega)
    simp only [lookupH, List.lookup, hbc]
    exact ih hf.2

theorem lookupH_none_of_heapBelow (h : Heap) (n b : ℕ)
    (hh : heapBelow n h = true) (hb : n ≤ b) : lookupH h b = none := by
  induction h with
  | nil => rfl
  | cons p rest ih =>
    obtain ⟨c, ob⟩ := p
    simp only [heapBelow, List.all_cons, Bool.and_eq_true, decide_eq_true_eq] at hh
    have hbc : (b == c) = false := beq_false_of_ne (by omega)
    simp only [lookupH, List.lookup, hbc]
    exact ih hh.2

theorem lookupH_append (h1 h2 : Heap) (b : ℕ) :
    lookupH (h1 ++ h2) b
      = match lookupH h1 b with
        | some ob => some ob
        | none => lookupH h2 b := by
  induction h1 with
  | nil => simp [lookupH, List.lookup]
  | cons p rest ih =>
    obtain ⟨c, ob⟩ := p
    by_cases hbc : (b == c) = true
    · simp [lookupH, List.lookup, hbc]
    · have hbc2 : (b == c) = false := Bool.eq_false_iff.mpr hbc
      simp only [lookupH, List.cons_append, List.lookup, hbc2]
      exact ih

theorem heapBelow_lookup (h : Heap) (n b : ℕ) (ob : HObj)
    (hh : heapBelow n h = true) (hb : lookupH h b = some ob) :
    refsBelowO n ob = true := by
  induction h with
  | nil => simp [lookupH, List.lookup] at hb
  | cons p rest ih =>
    obtain ⟨c, obc⟩ := p
    simp only [heapBelow, List.all_cons, Bool.and_eq_true, decide_eq_true_eq] at hh
    by_cases hbc : (b == c) = true
    · simp only [lookupH, List.lookup, hbc] at hb
      obtain rfl : obc = ob := by simpa using hb
      exact hh.1.2
    · have hbc2 : (b == c) = false := Bool.eq_false_iff.mpr hbc
      simp only [lookupH, List.lookup, hbc2] at hb
      exact ih hh.2 hb

theorem heapAtLeast_lookup (h : Heap) (n b : ℕ) (ob : HObj)
    (hh : heapAtLeast n h = true) (hb : lookupH h b = some ob) :
    refsAtLeastO n ob = true := by
  induction h with
  | nil => simp [lookupH, List.lookup] at hb
  | cons p rest ih =>
    obtain ⟨c, obc⟩ := p
    simp only [heapAtLeast, List.all_cons, Bool.and_eq_true, decide_eq_true_eq] at hh
    by_cases hbc : (b == c) = true
    · simp only [lookupH, List.lookup, hbc] at hb
      obtain rfl : obc = ob := by simpa using hb
      exact hh.1.2
    · have hbc2 : (b == c) = false := Bool.eq_false_iff.mpr hbc
      simp only [lookupH, List.lookup, hbc2] at hb
      exact ih hh.2 hb

theorem extractV_agree (S : ℕ → Prop) (h1 h2 : Heap)
    (hlk : ∀ b, S b → lookupH h1 b = lookupH h2 b)
    (hcl : ∀ b ob, S b → lookupH h2 b = some ob →
      ∀ p ∈ ob, ∀ c, p.2 = HVal.ref c → S c) :
    ∀ fuel v, (∀ c, v = HVal.ref c → S c) →
      extractV fuel h1 v = extractV fuel h2 v := by
  intro fuel
  induction fuel with
  | zero => intro v _; rfl
  | succ fuel ih =>
    intro v hv
    cases v with
    | ref c =>
      have hS := hv c rfl
      simp only [extractV, hlk c hS]
      cases hob : lookupH h2 c with
      | none => rfl
      | some ob =>
        simp only []
        congr 1
        refine List.map_congr_left ?_
        intro p hp
        have hp2 : p ∈ ob := List.mem_of_mem_filter hp
        have := hcl c ob hS hob p hp2
        exact congrArg (Prod.mk p.1) (ih p.2 (fun d hd => this d hd))
    | null => rfl
    | undef => rfl
    | bool b => rfl
    | nan => rfl
    | num q => rfl
    | str s => rfl

theorem refsAtLeastV_mono (m n : ℕ) (hnm : n ≤ m) (v : HVal)
    (h : refsAtLeastV m v = true) : refsAtLeastV n v = true := by
  cases v <;> first
    | rfl
    | (simp [refsAtLeastV] at h ⊢; omega)

theorem refsAtLeastO_mono (m n : ℕ) (hnm : n ≤ m) (ob : HObj)
    (h : refsAtLeastO m ob = true) : refsAtLeastO n ob = true := by
  simp only [refsAtLeastO, List.all_eq_true] at h ⊢
  exact fun p hp => refsAtLeastV_mono m n hnm p.2 (h p hp)

theorem heapAtLeast_mono (m n : ℕ) (hnm : n ≤ m) (h : Heap)
    (hh : heapAtLeast m h = true) : heapAtLeast n h = true := by
  simp only [heapAtLeast, List.all_eq_true, Bool.and_eq_true, decide_eq_true_eq] at hh ⊢
  exact fun p hp => ⟨le_trans hnm (hh p hp).1, refsAtLeastO_mono m n hnm p.2 (hh p hp).2⟩

theorem heapAtLeast_append (n : ℕ) (h1 h2 : Heap)
    (ha : heapAtLeast n h1 = true) (hb : heapAtLeast n h2 = true) :
    heapAtLeast n (h1 ++ h2) = true := by
  simp only [heapAtLeast, List.all_append, Bool.and_eq_true]
  exact ⟨ha, hb⟩

mutual

theorem allocTree_wf : ∀ (t : JVal) (n : ℕ),
    n ≤ (allocTree t n).2.2
      ∧ refsAtLeastV n (allocTree t n).1 = true
      ∧ heapAtLeast n (allocTree t n).2.1 = true
  | .null, n => by simp [allocTree, refsAtLeastV, heapAtLeast]
  | .undef, n => by simp [allocTree, refsAtLeastV, heapAtLeast]
  | .bool b, n => by simp [allocTree, refsAtLeastV, heapAtLeast]
  | .nan, n => by simp [allocTree, refsAtLeastV, heapAtLeast]
  | .num q, n => by simp [allocTree, refsAtLeastV, heapAtLeast]
  | .str s, n => by simp [allocTree, refsAtLeastV, heapAtLeast]
  | .arr es, n => by simp [allocTree, refsAtLeastV, heapAtLeast]
  | .obj fs, n => by
    have h := allocFields_wf fs (n + 1)
    refine ⟨?_, ?_, ?_⟩
    · simp only [allocTree]
      omega
    · simp [allocTree, refsAtLeastV]
    · simp only [allocTree, heapAtLeast, List.all_cons, Bool.and_eq_true,
        decide_eq_true_eq]
      refine ⟨⟨le_refl n, refsAtLeastO_mono (n + 1) n (by omega) _ h.2.1⟩, ?_⟩
      exact heapAtLeast_mono (n + 1) n (by omega) _ h.2.2

theorem allocFields_wf : ∀ (l : List (String × JVal)) (n : ℕ),
    n ≤ (allocFields l n).2.2
      ∧ refsAtLeastO n (allocFields l n).1 = true
      ∧ heapAtLeast n (allocFields l n).2.1 = true
  | [], n => by simp [allocFields, refsAtLeastO, heapAtLeast]
  | (k, v) :: rest, n => by
    have h1 := allocTree_wf v n
    have h2 := allocFields_wf rest (allocTree v n).2.2
    refine ⟨?_, ?_, ?_⟩
    · simp only [allocFields]
      omega
    · simp only [allocFields, refsAtLeastO, List.all_cons, Bool.and_eq_true]
      constructor
      · exact h1.2.1
      · exact refsAtLeastO_mono _ n h1.1 _ h2.2.1
    · simp only [allocFields]
      exact heapAtLeast_append n _ _ h1.2.2
        (heapAtLeast_mono _ n h1.1 _ h2.2.2)

end

/-- C5: `JSON.parse(JSON.stringify(...))` — modelled as `deepCopy`, the
body of both `getState()` and `getStepData()` (instantiate `root` with
the state root or with any step object reachable from it) — returns a
snapshot independent of the internal object graph.  For a well-formed
internal heap (all addresses and stored references below the allocation
counter `n`): (1) the copy's existence changes no internal read; (2) any
field store at any snapshot address (`≥ n`, which covers everything
reachable from the returned copy) leaves every internal read unchanged;
(3) any field store at any internal address (`< n`, covering all
subsequent internal mutations) leaves every read of the previously
returned snapshot unchanged. -/
theorem c5_snapshot_isolation (h : Heap) (root : HVal) (n fuel : ℕ)
    (hh : heapBelow n h = true) (hr : refsBelowV n root = true) :
    (∀ fl, extractV fl (h ++ (deepCopy fuel h root n).2.1) root = extractV fl h root) ∧
    (∀ a f w fl, n ≤ a →
       extractV fl (storeField (h ++ (deepCopy fuel h root n).2.1) a f w) root
         = extractV fl (h ++ (deepCopy fuel h root n).2.1) root) ∧
    (∀ a f w fl, a < n →
       extractV fl (storeField (h ++ (deepCopy fuel h root n).2.1) a f w)
           (deepCopy fuel h root n).1
         = extractV fl (h ++ (deepCopy fuel h root n).2.1) (deepCopy fuel h root n).1) := by
  have hw := allocTree_wf (extractV fuel h root) n
  have hfragAL : heapAtLeast n (deepCopy fuel h root n).2.1 = true := hw.2.2
  have hcopyAL : refsAtLeastV n (deepCopy fuel h root n).1 = true := hw.2.1
  set frag := (deepCopy fuel h root n).2.1
  set copy := (deepCopy fuel h root n).1
  have hrootS : ∀ c, root = HVal.ref c → c < n := by
    intro c hc
    rw [hc] at hr
    simpa [refsBelowV] using hr
  have hlow : ∀ b, b < n → lookupH (h ++ frag) b = lookupH h b := by
    intro b hb
    rw [lookupH_append]
    cases hlk : lookupH h b with
    | some ob => simp
    | none =>
      simp only []
      exact lookupH_none_of_heapAtLeast frag n b hfragAL hb
  have hhigh : ∀ b, n ≤ b → lookupH (h ++ frag) b = lookupH frag b := by
    intro b hb
    rw [lookupH_append, lookupH_none_of_heapBelow h n b hh hb]
  have hclLow : ∀ b ob, b < n → lookupH h b = some ob →
      ∀ p ∈ ob, ∀ c, p.2 = HVal.ref c → c < n := by
    intro b ob hb hob p hp c hc
    have hrefs := heapBelow_lookup h n b ob hh hob
    simp only [refsBelowO, List.all_eq_true] at hrefs
    have hrefp := hrefs p hp
    rw [hc] at hrefp
    simpa [refsBelowV] using hrefp
  have hclHigh : ∀ b ob, n ≤ b → lookupH (h ++ frag) b = some ob →
      ∀ p ∈ ob, ∀ c, p.2 = HVal.ref c → n ≤ c := by
    intro b ob hb hob p hp c hc
    rw [hhigh b hb] at hob
    have hrefs := heapAtLeast_lookup frag n b ob hfragAL hob
    simp only [refsAtLeastO, List.all_eq_true] at hrefs
    have hrefp := hrefs p hp
    rw [hc] at hrefp
    simpa [refsAtLeastV] using hrefp
  refine ⟨?_, ?_, ?_⟩
  · intro fl
    refine extractV_agree (fun b => b < n) (h ++ frag) h hlow ?_ fl root hrootS
    intro b ob hb hob
    exact hclLow b ob hb hob
  · intro a f w fl ha
    refine extractV_agree (fun b => b < n) _ _ ?_ ?_ fl root hrootS
    · intro b hb
      rw [lookupH_storeField, if_neg (by omega)]
    · intro b ob hb hob
      rw [hlow b hb] at hob
      exact hclLow b ob hb hob
  · intro a f w fl ha
    refine extractV_agree (fun b => n ≤ b) _ _ ?_ hclHigh fl copy ?_
    · intro b hb
      rw [lookupH_storeField, if_neg (by omega)]
    · intro c hc
      rw [hc] at hcopyAL
      simpa [refsAtLeastV] using hcopyAL

/-- Witness for C5 on a concrete three-object heap: mutating the copy
(address 3, the snapshot root) leaves internal reads unchanged, and
mutating the internal state root (address 0) leaves snapshot reads
unchanged. -/
theorem c5_snapshot_isolation_witness :
    (extractV 4 (storeField (heapW ++ (deepCopy 4 heapW (.ref 0) 3).2.1) 3 "hack"
        (.str "x")) (.ref 0)
      = extractV 4 (heapW ++ (deepCopy 4 heapW (.ref 0) 3).2.1) (.ref 0)) ∧
    (extractV 4 (storeField (heapW ++ (deepCopy 4 heapW (.ref 0) 3).2.1) 0 "hack"
        (.str "x")) (deepCopy 4 heapW (.ref 0) 3).1
      = extractV 4 (heapW ++ (deepCopy 4 heapW (.ref 0) 3).2.1)
          (deepCopy 4 heapW (.ref 0) 3).1) := by
  have hth := c5_snapshot_isolation heapW (.ref 0) 3 4 (by decide) (by decide)
  exact ⟨hth.2.1 3 "hack" (.str "x") 4 (by omega),
    hth.2.2 0 "hack" (.str "x") 4 (by omega)⟩
